import Mathlib

/-!
# Verification of the M24C64 EEPROM driver (`src/lib.rs`)

A shallow embedding of the driver in Lean 4.  The driver turns logical
(region, offset, payload) requests into I2C bus transactions:

* machine integers (`u8`, `usize`) are modelled as `Nat` with explicit
  `% 2^w` at the points where the Rust code casts or where fixed-width
  arithmetic wraps (release-mode semantics for arithmetic overflow);
* the `&mut self` driver state (`cmd_buf`) is threaded explicitly;
* the I2C transport (`embedded_hal::blocking::i2c::{Write, WriteRead}`)
  is an abstract stateful interface; each driver operation additionally
  returns the list of bus transactions it issued;
* the slice copy `cmd_buf[2 .. len+2].copy_from_slice(bytes)` can panic
  when out of bounds, so `write_raw` returns an `Option` (`none` = panic).
-/

/-- `pub const ADDRESS_LAST: usize = 256 * 32;` -/
def ADDRESS_LAST : Nat := 256 * 32

/-- The four error kinds of `enum Error<I>` (`I2C`, `Conn`, `Address`, `Port`). -/
inductive Error (S : Type) where
  | I2C : S → Error S
  | Conn : Error S
  | Address : Error S
  | Port : Error S
deriving DecidableEq, Repr

/-- `enum Dest { Memory = 0xa, Identification = 0xb }` -/
inductive Dest where
  | Memory : Dest
  | Identification : Dest
deriving DecidableEq, Repr

/-- The `#[repr(u8)]` discriminant of `Dest`. -/
def Dest.val : Dest → Nat
  | .Memory => 0xa
  | .Identification => 0xb

/-- `pub struct Config { pub address: u8 }` — the 3-bit chip-enable value. -/
structure Config where
  address : Nat
deriving DecidableEq, Repr

/-- The driver state: configuration plus the 34-byte command buffer
(`cmd_buf: [u8; 34]`, modelled as a list of length 34).  The zero-sized
device-family typestate marker carries no data and is omitted. -/
structure M24C64 where
  config : Config
  cmd_buf : List Nat
deriving DecidableEq, Repr

/-- `M24C64::new`: fresh handle with a zeroed command buffer. -/
def M24C64.new (config : Config) : M24C64 :=
  { config := config, cmd_buf := List.replicate 34 0 }

/-- A bus transaction as seen on the wire: a plain write of `data` to the
7-bit device-select address `dev`, or a combined write-then-read of
`readLen` bytes. -/
inductive BusOp where
  | write : (dev : Nat) → (data : List Nat) → BusOp
  | writeRead : (dev : Nat) → (data : List Nat) → (readLen : Nat) → BusOp
deriving DecidableEq, Repr

/-- The abstract blocking I2C transport: `S` is the transport's error type,
`B` its internal state (the physical bus plus whatever is behind it). -/
structure I2CBus (S B : Type) where
  busWrite : B → Nat → List Nat → B × Except S Unit
  busWriteRead : B → Nat → List Nat → Nat → B × Except S (List Nat)

/-- The bus-level device-select address: `self.config.address | dest as u8`. -/
def devSelect (cfg : Config) (dest : Dest) : Nat :=
  cfg.address ||| dest.val

/-- `copy_from_slice` into `buf[start .. start + src.length]`
(meaningful when `start + src.length ≤ buf.length`). -/
def copyInto (buf : List Nat) (start : Nat) (src : List Nat) : List Nat :=
  buf.take start ++ src ++ buf.drop (start + src.length)

/-- The bytes placed in `cmd_buf` and sent for a write: big-endian offset
prefix `cmd_buf[0] = (address >> 8) as u8`, `cmd_buf[1] = (address & 0xff) as u8`,
then the payload, i.e. `&cmd_buf[0 .. len + 2]` after the copy. -/
def frameFor (m : M24C64) (address : Nat) (bytes : List Nat) : List Nat :=
  (copyInto ((m.cmd_buf.set 0 ((address >>> 8) % 256)).set 1 (address % 256)) 2 bytes).take
    (bytes.length + 2)

/-- The big-endian offset encoded in a framed byte sequence
(first two bytes, high then low). -/
def frameOffset : List Nat → Nat
  | hi :: lo :: _ => hi * 256 + lo
  | _ => 0

/-- `fn write_raw(&mut self, dest, address, bytes)`: frame the 2-byte
big-endian offset plus payload into `cmd_buf` and issue one bus write.
`none` models the panic of `cmd_buf[2 .. len+2].copy_from_slice(bytes)`
when `len + 2 > 34`. -/
def write_raw {S B : Type} (bus : I2CBus S B) (b : B) (m : M24C64) (dest : Dest)
    (address : Nat) (bytes : List Nat) :
    Option (B × M24C64 × Except (Error S) Unit × List BusOp) :=
  if bytes.length + 2 > 34 then
    none
  else
    let buf := copyInto ((m.cmd_buf.set 0 ((address >>> 8) % 256)).set 1 (address % 256)) 2 bytes
    let frame := buf.take (bytes.length + 2)
    let dev := devSelect m.config dest
    let m' : M24C64 := { m with cmd_buf := buf }
    match bus.busWrite b dev frame with
    | (b', Except.ok _) => some (b', m', Except.ok (), [BusOp.write dev frame])
    | (b', Except.error e) => some (b', m', Except.error (Error.I2C e), [BusOp.write dev frame])

/-- `fn read_raw(&mut self, dest, address, bytes)`: write the 2-byte
big-endian offset, then read `readLen` bytes, as one combined
write-then-read transaction.  The success value is the bytes read into
the caller's buffer. -/
def read_raw {S B : Type} (bus : I2CBus S B) (b : B) (m : M24C64) (dest : Dest)
    (address : Nat) (readLen : Nat) :
    B × M24C64 × Except (Error S) (List Nat) × List BusOp :=
  let buf := (m.cmd_buf.set 0 ((address >>> 8) % 256)).set 1 (address % 256)
  let frame := buf.take 2
  let dev := devSelect m.config dest
  let m' : M24C64 := { m with cmd_buf := buf }
  match bus.busWriteRead b dev frame readLen with
  | (b', Except.ok out) => (b', m', Except.ok out, [BusOp.writeRead dev frame readLen])
  | (b', Except.error e) =>
      (b', m', Except.error (Error.I2C e), [BusOp.writeRead dev frame readLen])

/-- `pub fn write_page(&mut self, page: u8, bytes: &[u8; 32])`.
`page` is a `u8` (`page < 256`); the payload has exactly 32 bytes (stated
as a hypothesis where needed).  NOTE: the source computes
`(page * 32) as usize` where `page * 32` is a `u8` multiplication, so the
product wraps modulo 256 (release-mode overflow semantics); this is
modelled faithfully as `(page * 32) % 256`. -/
def write_page {S B : Type} (bus : I2CBus S B) (b : B) (m : M24C64)
    (page : Nat) (bytes : List Nat) :
    Option (B × M24C64 × Except (Error S) Unit × List BusOp) :=
  write_raw bus b m Dest.Memory ((page * 32) % 256) bytes

/-- `pub fn write(&mut self, address: usize, bytes: &[u8])`: rejects with
`Error::Address` when `address % 32 + bytes.len() > 32`, else forwards to
`write_raw` on the memory region. -/
def write {S B : Type} (bus : I2CBus S B) (b : B) (m : M24C64)
    (address : Nat) (bytes : List Nat) :
    Option (B × M24C64 × Except (Error S) Unit × List BusOp) :=
  if address % 32 + bytes.length > 32 then
    some (b, m, Except.error Error.Address, [])
  else
    write_raw bus b m Dest.Memory address bytes

/-- `pub fn read_page(&mut self, page: u8, bytes: &mut [u8; 32])`.
The same wrapping `u8` multiplication `(page * 32) as usize` as in
`write_page`. -/
def read_page {S B : Type} (bus : I2CBus S B) (b : B) (m : M24C64) (page : Nat) :
    B × M24C64 × Except (Error S) (List Nat) × List BusOp :=
  read_raw bus b m Dest.Memory ((page * 32) % 256) 32

/-- `pub fn read(&mut self, address: usize, bytes: &mut [u8])`: rejects with
`Error::Address` when `address + bytes.len() > ADDRESS_LAST`, else one
combined write-then-read on the memory region.  `readLen` is the caller's
buffer length. -/
def read {S B : Type} (bus : I2CBus S B) (b : B) (m : M24C64)
    (address : Nat) (readLen : Nat) :
    B × M24C64 × Except (Error S) (List Nat) × List BusOp :=
  if address + readLen > ADDRESS_LAST then
    (b, m, Except.error Error.Address, [])
  else
    read_raw bus b m Dest.Memory address readLen

/-- `address &= !(1 << 10)` on a `usize`: clear bit 10.  Width-independent
formulation, exact for every in-range `usize` value. -/
def clearBit10 (a : Nat) : Nat :=
  if a.testBit 10 then a - 2 ^ 10 else a

/-- `pub fn write_id(&mut self, mut address: usize, bytes: &[u8])`
(extended family): rejects with `Error::Address` when
`address + bytes.len() > 32`; otherwise clears bit 10 of the offset and
forwards to `write_raw` on the identification region. -/
def write_id {S B : Type} (bus : I2CBus S B) (b : B) (m : M24C64)
    (address : Nat) (bytes : List Nat) :
    Option (B × M24C64 × Except (Error S) Unit × List BusOp) :=
  if address + bytes.length > 32 then
    some (b, m, Except.error Error.Address, [])
  else
    write_raw bus b m Dest.Identification (clearBit10 address) bytes

/-- `pub fn write_id_page(&mut self, bytes: &[u8; 32])` (extended family). -/
def write_id_page {S B : Type} (bus : I2CBus S B) (b : B) (m : M24C64)
    (bytes : List Nat) :
    Option (B × M24C64 × Except (Error S) Unit × List BusOp) :=
  write_raw bus b m Dest.Identification 0 bytes

/-- `pub fn lock_id_page(&mut self)` (extended family): a single 1-byte
write of `0x2` to offset `0x400` on the identification region. -/
def lock_id_page {S B : Type} (bus : I2CBus S B) (b : B) (m : M24C64) :
    Option (B × M24C64 × Except (Error S) Unit × List BusOp) :=
  write_raw bus b m Dest.Identification 0x400 [0x2]

/-- `pub fn read_id(&mut self, address: usize, bytes: &mut [u8])`
(extended family). -/
def read_id {S B : Type} (bus : I2CBus S B) (b : B) (m : M24C64)
    (address : Nat) (readLen : Nat) :
    B × M24C64 × Except (Error S) (List Nat) × List BusOp :=
  if address + readLen > 32 then
    (b, m, Except.error Error.Address, [])
  else
    read_raw bus b m Dest.Identification address readLen

/-- `pub fn read_id_page(&mut self, bytes: &mut [u8; 32])` (extended family). -/
def read_id_page {S B : Type} (bus : I2CBus S B) (b : B) (m : M24C64) :
    B × M24C64 × Except (Error S) (List Nat) × List BusOp :=
  read_raw bus b m Dest.Identification 0 32

/-- A transport that always succeeds and returns zeros, for concrete
evaluations. -/
def stubBus : I2CBus Unit Unit where
  busWrite b _ _ := (b, Except.ok ())
  busWriteRead b _ _ n := (b, Except.ok (List.replicate n 0))

/-- Store a byte sequence into a memory array (`Nat → Nat`) starting at
`off`, one byte per address. -/
def storeBytes : (Nat → Nat) → Nat → List Nat → (Nat → Nat)
  | mem, _, [] => mem
  | mem, off, x :: rest => storeBytes (fun i => if i = off then x else mem i) (off + 1) rest

/-- Read `n` consecutive bytes of a memory array starting at `off`. -/
def readBytes : (Nat → Nat) → Nat → Nat → List Nat
  | _, _, 0 => []
  | mem, off, n + 1 => mem off :: readBytes mem (off + 1) n

/-- Decode a framed write: the first two bytes are the big-endian offset,
the rest is the payload stored there. -/
def modelWrite (mem : Nat → Nat) (data : List Nat) : Nat → Nat :=
  match data with
  | hi :: lo :: payload => storeBytes mem (hi * 256 + lo) payload
  | _ => mem

/-- A transport that faithfully models the memory array: bus state is the
array contents, writes store the framed payload at the framed offset,
combined write-then-reads return the bytes at the framed offset. -/
def modelBus : I2CBus Unit (Nat → Nat) where
  busWrite mem _ data := (modelWrite mem data, Except.ok ())
  busWriteRead mem _ data n :=
    match data with
    | hi :: lo :: _ => (mem, Except.ok (readBytes mem (hi * 256 + lo) n))
    | _ => (mem, Except.ok (readBytes mem 0 n))

/-! ## Basic lemmas about the framing buffer -/

theorem take_two_set (buf : List Nat) (a c : Nat) (h : 2 ≤ buf.length) :
    ((buf.set 0 a).set 1 c).take 2 = [a, c] := by
  match buf with
  | [] => simp at h
  | [x] => simp at h
  | x :: y :: rest => rfl

theorem copyInto_length (buf src : List Nat) (start : Nat)
    (h : start + src.length ≤ buf.length) :
    (copyInto buf start src).length = buf.length := by
  simp only [copyInto, List.length_append, List.length_take, List.length_drop]
  omega

theorem frameFor_eq (m : M24C64) (address : Nat) (bytes : List Nat)
    (h34 : m.cmd_buf.length = 34) (_hlen : bytes.length ≤ 32) :
    frameFor m address bytes = ((address >>> 8) % 256) :: (address % 256) :: bytes := by
  unfold frameFor copyInto
  rw [take_two_set _ _ _ (by simp [h34])]
  show ((((address >>> 8) % 256) :: (address % 256) :: bytes) ++
      List.drop (2 + bytes.length)
        ((m.cmd_buf.set 0 ((address >>> 8) % 256)).set 1 (address % 256))).take
      (bytes.length + 2) = ((address >>> 8) % 256) :: (address % 256) :: bytes
  exact List.take_left' (by simp only [List.length_cons])

/-- Characterization of `write_raw` when the payload fits the command
buffer: it returns (no panic), issues exactly one bus write of the framed
bytes to the region's device-select address, succeeds exactly when the
transport succeeds, and preserves the buffer length and configuration. -/
theorem write_raw_characterize {S B : Type} (bus : I2CBus S B) (b : B) (m : M24C64)
    (dest : Dest) (address : Nat) (bytes : List Nat)
    (h34 : m.cmd_buf.length = 34) (hlen : bytes.length ≤ 32) :
    ∃ b' m' res, write_raw bus b m dest address bytes =
      some (b', m', res,
        [BusOp.write (devSelect m.config dest)
          (((address >>> 8) % 256) :: (address % 256) :: bytes)]) ∧
      m'.config = m.config ∧ m'.cmd_buf.length = 34 ∧
      (res = Except.ok () ∨ ∃ e, res = Except.error (Error.I2C e)) ∧
      (∀ b2 u, bus.busWrite b (devSelect m.config dest)
          (((address >>> 8) % 256) :: (address % 256) :: bytes) = (b2, Except.ok u) →
        b' = b2 ∧ res = Except.ok ()) := by
  have hfr := frameFor_eq m address bytes h34 hlen
  unfold frameFor at hfr
  have hguard : ¬ bytes.length + 2 > 34 := by omega
  have hbuflen :
      (copyInto ((m.cmd_buf.set 0 ((address >>> 8) % 256)).set 1 (address % 256)) 2
        bytes).length = 34 := by
    rw [copyInto_length _ _ _ (by simp [h34]; omega)]
    simp [h34]
  rcases hbw : bus.busWrite b (devSelect m.config dest)
      (((address >>> 8) % 256) :: (address % 256) :: bytes) with ⟨b2, r⟩
  cases r with
  | ok u =>
      refine ⟨b2,
        ⟨m.config,
          copyInto ((m.cmd_buf.set 0 ((address >>> 8) % 256)).set 1 (address % 256)) 2 bytes⟩,
        Except.ok (), ?_, rfl, hbuflen, Or.inl rfl, ?_⟩
      · simp [write_raw, hguard, hfr, hbw]
      · intro b3 u2 heq
        injection heq with h1 h2
        exact ⟨h1, rfl⟩
  | error e =>
      refine ⟨b2,
        ⟨m.config,
          copyInto ((m.cmd_buf.set 0 ((address >>> 8) % 256)).set 1 (address % 256)) 2 bytes⟩,
        Except.error (Error.I2C e), ?_, rfl, hbuflen, Or.inr ⟨e, rfl⟩, ?_⟩
      · simp [write_raw, hguard, hfr, hbw]
      · intro b3 u2 heq
        injection heq with h1 h2
        simp at h2

/-- Characterization of `read_raw`: it issues exactly one combined
write-then-read transaction carrying the 2-byte big-endian offset, and
succeeds with the transport's bytes exactly when the transport succeeds. -/
theorem read_raw_characterize {S B : Type} (bus : I2CBus S B) (b : B) (m : M24C64)
    (dest : Dest) (address : Nat) (n : Nat) (h34 : m.cmd_buf.length = 34) :
    ∃ b' m' res, read_raw bus b m dest address n =
      (b', m', res,
        [BusOp.writeRead (devSelect m.config dest)
          [(address >>> 8) % 256, address % 256] n]) ∧
      m'.config = m.config ∧ m'.cmd_buf.length = 34 ∧
      ((∃ out, res = Except.ok out) ∨ ∃ e, res = Except.error (Error.I2C e)) ∧
      (∀ b2 out, bus.busWriteRead b (devSelect m.config dest)
          [(address >>> 8) % 256, address % 256] n = (b2, Except.ok out) →
        b' = b2 ∧ res = Except.ok out) := by
  have htake := take_two_set m.cmd_buf ((address >>> 8) % 256) (address % 256)
    (by simp [h34])
  rcases hbw : bus.busWriteRead b (devSelect m.config dest)
      [(address >>> 8) % 256, address % 256] n with ⟨b2, r⟩
  cases r with
  | ok out =>
      refine ⟨b2, ⟨m.config, (m.cmd_buf.set 0 ((address >>> 8) % 256)).set 1 (address % 256)⟩,
        Except.ok out, ?_, rfl, by simp [h34], Or.inl ⟨out, rfl⟩, ?_⟩
      · simp [read_raw, htake, hbw]
      · intro b3 out2 heq
        injection heq with h1 h2
        injection h2 with h3
        exact ⟨h1, by rw [h3]⟩
  | error e =>
      refine ⟨b2, ⟨m.config, (m.cmd_buf.set 0 ((address >>> 8) % 256)).set 1 (address % 256)⟩,
        Except.error (Error.I2C e), ?_, rfl, by simp [h34], Or.inr ⟨e, rfl⟩, ?_⟩
      · simp [read_raw, htake, hbw]
      · intro b3 out2 heq
        injection heq with h1 h2
        simp at h2

/-- `write_raw` never panics when the payload has at most 32 bytes. -/
theorem write_raw_ne_none {S B : Type} (bus : I2CBus S B) (b : B) (m : M24C64)
    (dest : Dest) (address : Nat) (bytes : List Nat) (hlen : bytes.length ≤ 32) :
    write_raw bus b m dest address bytes ≠ none := by
  have hguard : ¬ bytes.length + 2 > 34 := by omega
  unfold write_raw
  simp only [hguard, if_false]
  rcases bus.busWrite b (devSelect m.config dest) _ with ⟨b2, r⟩
  cases r <;> simp

/-! ## Claim theorems -/

/-- C1 (code_bug evidence): `write_page` does NOT address the main array
at `pageIndex * 32` for every `pageIndex` in [0,256): the source computes
`(page * 32) as usize` with `page: u8`, so the product wraps modulo 256.
At `pageIndex = 8` the framed big-endian address prefix is `[0x00, 0x00]`
(offset 0), not the big-endian encoding `[0x01, 0x00]` of `8 * 32 = 256`. -/
theorem m24c64_C1_page_mul_wraps :
    (∃ m2, write_page stubBus () (M24C64.new ⟨0⟩) 8 (List.replicate 32 0xab) =
      some ((), m2, Except.ok (),
        [BusOp.write (devSelect ⟨0⟩ Dest.Memory) (0 :: 0 :: List.replicate 32 0xab)])) ∧
    frameOffset (0 :: 0 :: List.replicate 32 0xab) ≠ 8 * 32 := by
  refine ⟨⟨⟨⟨0⟩, 0 :: 0 :: List.replicate 32 0xab⟩, ?_⟩, by decide⟩
  rfl

/-- C2 (counterexample): with chip-select `0b101` (the configuration used
as the example in the source's own documentation) the device-select
address of the main array equals the one of the identification region,
and `write` and `write_id` in fact issue bus transactions to the same
bus address `0xf`. -/
theorem m24c64_C2_counterexample :
    devSelect ⟨0b101⟩ Dest.Memory = devSelect ⟨0b101⟩ Dest.Identification ∧
    (∃ m2, write stubBus () (M24C64.new ⟨0b101⟩) 0 [0xAA] =
      some ((), m2, Except.ok (), [BusOp.write 0xf [0x00, 0x00, 0xAA]])) ∧
    (∃ m2, write_id stubBus () (M24C64.new ⟨0b101⟩) 0 [0xAA] =
      some ((), m2, Except.ok (), [BusOp.write 0xf [0x00, 0x00, 0xAA]])) := by
  refine ⟨by decide, ⟨⟨⟨0b101⟩, 0 :: 0 :: 0xAA :: List.replicate 31 0⟩, ?_⟩,
    ⟨⟨⟨0b101⟩, 0 :: 0 :: 0xAA :: List.replicate 31 0⟩, ?_⟩⟩ <;> rfl

set_option maxRecDepth 4096 in
/-- C2 (amended): the main-array and identification-region device-select
addresses `chipSelect | 0xa` and `chipSelect | 0xb` are distinct exactly
when bit 0 of the chip-select value is clear; for odd chip-select values
the two regions are multiplexed to the same bus address. -/
theorem m24c64_C2_region_addresses_distinct_iff_even :
    ∀ cs, cs < 256 →
      ((devSelect ⟨cs⟩ Dest.Memory = devSelect ⟨cs⟩ Dest.Identification) ↔ cs % 2 = 1) := by
  decide

/-- C2 witness: an even chip-select (`0b110`) yields distinct addresses. -/
theorem m24c64_C2_region_addresses_witness :
    (devSelect ⟨0b110⟩ Dest.Memory = devSelect ⟨0b110⟩ Dest.Identification) ↔ 0b110 % 2 = 1 :=
  m24c64_C2_region_addresses_distinct_iff_even 0b110 (by decide)

/-- C3: `write` returns `Error::Address` if and only if
`address % 32 + bytes.length > 32`, and on that error path it issues zero
bus transactions (the check happens before any bus I/O). -/
theorem m24c64_C3_write_address_error_iff {S B : Type} (bus : I2CBus S B) (b : B)
    (m : M24C64) (address : Nat) (bytes : List Nat) (h34 : m.cmd_buf.length = 34) :
    ∃ b' m' res tr, write bus b m address bytes = some (b', m', res, tr) ∧
      ((res = Except.error Error.Address) ↔ address % 32 + bytes.length > 32) ∧
      (address % 32 + bytes.length > 32 → tr = []) := by
  by_cases hg : address % 32 + bytes.length > 32
  · exact ⟨b, m, Except.error Error.Address, [],
      by simp [write, hg], by simp [hg], fun _ => rfl⟩
  · have hlen : bytes.length ≤ 32 := by omega
    obtain ⟨b', m', res, heq, hconf, hlen', hres, hok⟩ :=
      write_raw_characterize bus b m Dest.Memory address bytes h34 hlen
    refine ⟨b', m', res,
      [BusOp.write (devSelect m.config Dest.Memory)
        (((address >>> 8) % 256) :: (address % 256) :: bytes)], ?_, ?_, ?_⟩
    · rw [write, if_neg hg]
      exact heq
    · have hne : res ≠ Except.error Error.Address := by
        rcases hres with h1 | ⟨e, h1⟩ <;> subst h1 <;> simp
      exact ⟨fun h => absurd h hne, fun h => absurd h hg⟩
    · intro h
      exact absurd h hg

/-- C3 witness at a page-interior write of 3 bytes at offset 5. -/
theorem m24c64_C3_witness :
    ∃ b' m' res tr, write stubBus () (M24C64.new ⟨0⟩) 5 [1, 2, 3] = some (b', m', res, tr) ∧
      ((res = Except.error Error.Address) ↔ 5 % 32 + [1, 2, 3].length > 32) ∧
      (5 % 32 + [1, 2, 3].length > 32 → tr = []) :=
  m24c64_C3_write_address_error_iff stubBus () (M24C64.new ⟨0⟩) 5 [1, 2, 3] (by decide)

/-- C4: `read` returns `Error::Address` if and only if
`address + readLen > 8192`, issues zero bus transactions on that error
path, and otherwise issues exactly one combined write-then-read
transaction and succeeds whenever the transport succeeds. -/
theorem m24c64_C4_read_bound_check {S B : Type} (bus : I2CBus S B) (b : B)
    (m : M24C64) (address n : Nat) (h34 : m.cmd_buf.length = 34) :
    ∃ b' m' res tr, read bus b m address n = (b', m', res, tr) ∧
      ((res = Except.error Error.Address) ↔ address + n > 8192) ∧
      (address + n > 8192 → tr = []) ∧
      (address + n ≤ 8192 →
        tr = [BusOp.writeRead (devSelect m.config Dest.Memory)
          [(address >>> 8) % 256, address % 256] n] ∧
        ∀ b2 out, bus.busWriteRead b (devSelect m.config Dest.Memory)
            [(address >>> 8) % 256, address % 256] n = (b2, Except.ok out) →
          res = Except.ok out) := by
  by_cases hg : address + n > 8192
  · refine ⟨b, m, Except.error Error.Address, [], ?_, by simp [hg], fun _ => rfl,
      fun h => absurd hg (by omega)⟩
    have hrd : read bus b m address n =
        if address + n > ADDRESS_LAST then (b, m, Except.error Error.Address, [])
        else read_raw bus b m Dest.Memory address n := rfl
    rw [hrd, if_pos (by simpa [ADDRESS_LAST] using hg)]
  · obtain ⟨b', m', res, heq, hconf, hlen', hres, hok⟩ :=
      read_raw_characterize bus b m Dest.Memory address n h34
    refine ⟨b', m', res,
      [BusOp.writeRead (devSelect m.config Dest.Memory)
        [(address >>> 8) % 256, address % 256] n], ?_, ?_, fun h => absurd h hg, ?_⟩
    · have hrd : read bus b m address n =
          if address + n > ADDRESS_LAST then (b, m, Except.error Error.Address, [])
          else read_raw bus b m Dest.Memory address n := rfl
      rw [hrd, if_neg (by simpa [ADDRESS_LAST] using hg)]
      exact heq
    · have hne : res ≠ Except.error Error.Address := by
        rcases hres with ⟨out, h1⟩ | ⟨e, h1⟩ <;> subst h1 <;> simp
      exact ⟨fun h => absurd h hne, fun h => absurd h hg⟩
    · exact fun _ => ⟨rfl, fun b2 out h => (hok b2 out h).2⟩

/-- C4 witness: a 4-byte read at offset 100 on a fresh handle. -/
theorem m24c64_C4_witness :
    ∃ b' m' res tr, read stubBus () (M24C64.new ⟨0⟩) 100 4 = (b', m', res, tr) ∧
      ((res = Except.error Error.Address) ↔ 100 + 4 > 8192) ∧
      (100 + 4 > 8192 → tr = []) ∧
      (100 + 4 ≤ 8192 →
        tr = [BusOp.writeRead (devSelect ⟨0⟩ Dest.Memory) [(100 >>> 8) % 256, 100 % 256] 4] ∧
        ∀ b2 out, stubBus.busWriteRead () (devSelect ⟨0⟩ Dest.Memory)
            [(100 >>> 8) % 256, 100 % 256] 4 = (b2, Except.ok out) →
          res = Except.ok out) :=
  m24c64_C4_read_bound_check stubBus () (M24C64.new ⟨0⟩) 100 4 (by decide)

/-- C5: for every caller-supplied offset and payload, every bus write
issued by `write_id` carries a framed offset with bit 10 clear, so it can
never encode the lock-control address `0x400` used by `lock_id_page`. -/
theorem m24c64_C5_write_id_never_locks {S B : Type} (bus : I2CBus S B) (b : B)
    (m : M24C64) (address : Nat) (bytes : List Nat) (h34 : m.cmd_buf.length = 34) :
    ∀ b' m' res tr, write_id bus b m address bytes = some (b', m', res, tr) →
      ∀ dev data, BusOp.write dev data ∈ tr →
        (frameOffset data).testBit 10 = false ∧ frameOffset data ≠ 0x400 := by
  intro b' m' res tr heqh dev data hmem
  by_cases hg : address + bytes.length > 32
  · rw [write_id, if_pos hg] at heqh
    cases Option.some.inj heqh
    simp at hmem
  · have hlen : bytes.length ≤ 32 := by omega
    have haddr : address ≤ 32 := by omega
    have hclear : clearBit10 address = address := by
      rw [clearBit10, if_neg]
      rw [Nat.testBit_lt_two_pow (by omega)]
      simp
    obtain ⟨b2, m2, res2, heq, hconf, hlen', hres, hok⟩ :=
      write_raw_characterize bus b m Dest.Identification address bytes h34 hlen
    rw [write_id, if_neg hg, hclear, heq] at heqh
    cases Option.some.inj heqh
    have hhi : (address >>> 8) % 256 = 0 := by
      rw [Nat.shiftRight_eq_div_pow]
      norm_num
      omega
    have hlo : address % 256 = address := Nat.mod_eq_of_lt (by omega)
    rw [hhi, hlo] at hmem
    simp only [List.mem_singleton] at hmem
    injection hmem with hdev hdata
    rw [hdata, frameOffset]
    refine ⟨Nat.testBit_lt_two_pow (by omega), by omega⟩

/-- C5 witness at offset 4, payload [9]: the issued frame `[0, 4, 9]`
has bit 10 of its offset clear and does not encode `0x400`. -/
theorem m24c64_C5_witness :
    (frameOffset [0, 4, 9]).testBit 10 = false ∧ frameOffset [0, 4, 9] ≠ 0x400 :=
  m24c64_C5_write_id_never_locks stubBus () (M24C64.new ⟨0⟩) 4 [9] (by decide)
    () ⟨⟨0⟩, 0 :: 4 :: 9 :: List.replicate 31 0⟩ (Except.ok ())
    [BusOp.write (devSelect ⟨0⟩ Dest.Identification) [0, 4, 9]] (by rfl)
    (devSelect ⟨0⟩ Dest.Identification) [0, 4, 9] (by simp)

/-- C6: `lock_id_page` always issues exactly one bus write, on the
identification-region device-select address, framed as the big-endian
encoding of `0x400` followed by the single control byte `0x02`,
regardless of the prior contents of the command buffer. -/
theorem m24c64_C6_lock_frame {S B : Type} (bus : I2CBus S B) (b : B)
    (m : M24C64) (h34 : m.cmd_buf.length = 34) :
    ∃ b' m' res, lock_id_page bus b m =
      some (b', m', res,
        [BusOp.write (devSelect m.config Dest.Identification) [0x04, 0x00, 0x02]]) ∧
      (res = Except.ok () ∨ ∃ e, res = Except.error (Error.I2C e)) := by
  obtain ⟨b', m', res, heq, hconf, hlen', hres, hok⟩ :=
    write_raw_characterize bus b m Dest.Identification 0x400 [0x2] h34 (by simp)
  have h1 : ((0x400 : Nat) >>> 8) % 256 = 4 := by decide
  have h2 : (0x400 : Nat) % 256 = 0 := by decide
  rw [h1, h2] at heq
  exact ⟨b', m', res, heq, hres⟩

/-- C6 witness on a fresh handle. -/
theorem m24c64_C6_witness :
    ∃ b' m' res, lock_id_page stubBus () (M24C64.new ⟨0⟩) =
      some (b', m', res,
        [BusOp.write (devSelect ⟨0⟩ Dest.Identification) [0x04, 0x00, 0x02]]) ∧
      (res = Except.ok () ∨ ∃ e, res = Except.error (Error.I2C e)) :=
  m24c64_C6_lock_frame stubBus () (M24C64.new ⟨0⟩) (by decide)

/-- C7: whenever `address % 32 + bytes.length ≤ 32` (and the offset fits
the 2-byte frame), `write` issues exactly one bus write whose first two
bytes are the big-endian encoding of the offset, followed by the payload;
in particular with chip-select `0b101`, `write 0 [0xAA, 0xBB]` issues one
bus write to `0xa ||| 0b101` with bytes `[0x00, 0x00, 0xAA, 0xBB]`. -/
theorem m24c64_C7_write_frames_big_endian {S B : Type} (bus : I2CBus S B) (b : B)
    (m : M24C64) (address : Nat) (bytes : List Nat) (h34 : m.cmd_buf.length = 34)
    (hb : address % 32 + bytes.length ≤ 32) (ha : address < 65536) :
    (∃ b' m' res, write bus b m address bytes =
      some (b', m', res,
        [BusOp.write (devSelect m.config Dest.Memory)
          (address / 256 :: address % 256 :: bytes)])) ∧
    (∃ m2, write stubBus () (M24C64.new ⟨0b101⟩) 0 [0xAA, 0xBB] =
      some ((), m2, Except.ok (),
        [BusOp.write (devSelect ⟨0b101⟩ Dest.Memory) [0x00, 0x00, 0xAA, 0xBB]])) := by
  constructor
  · have hlen : bytes.length ≤ 32 := by omega
    obtain ⟨b', m', res, heq, hconf, hlen', hres, hok⟩ :=
      write_raw_characterize bus b m Dest.Memory address bytes h34 hlen
    have hhi : (address >>> 8) % 256 = address / 256 := by
      rw [Nat.shiftRight_eq_div_pow]
      norm_num
      omega
    rw [hhi] at heq
    refine ⟨b', m', res, ?_⟩
    rw [write, if_neg (by omega)]
    exact heq
  · exact ⟨⟨⟨0b101⟩, 0 :: 0 :: 0xAA :: 0xBB :: List.replicate 30 0⟩, by rfl⟩

/-- C7 witness: a 2-byte write at offset 0 with chip-select `0b101`. -/
theorem m24c64_C7_witness :
    (∃ b' m' res, write stubBus () (M24C64.new ⟨0b101⟩) 0 [0xAA, 0xBB] =
      some (b', m', res,
        [BusOp.write (devSelect ⟨0b101⟩ Dest.Memory) (0 / 256 :: 0 % 256 :: [0xAA, 0xBB])])) ∧
    (∃ m2, write stubBus () (M24C64.new ⟨0b101⟩) 0 [0xAA, 0xBB] =
      some ((), m2, Except.ok (),
        [BusOp.write (devSelect ⟨0b101⟩ Dest.Memory) [0x00, 0x00, 0xAA, 0xBB]])) :=
  m24c64_C7_write_frames_big_endian stubBus () (M24C64.new ⟨0b101⟩) 0 [0xAA, 0xBB]
    (by decide) (by decide) (by decide)

/-- C8: for offsets at or beyond the end of the array, as long as the
page-boundary formula is satisfied, `write` performs no upper-bound check:
it does not return `Error::Address` and forwards the request to the
transport as one bus write. -/
theorem m24c64_C8_no_upper_bound_check {S B : Type} (bus : I2CBus S B) (b : B)
    (m : M24C64) (address : Nat) (bytes : List Nat) (h34 : m.cmd_buf.length = 34)
    (_hge : 8192 ≤ address) (hb : address % 32 + bytes.length ≤ 32) :
    ∃ b' m' res, write bus b m address bytes =
      some (b', m', res,
        [BusOp.write (devSelect m.config Dest.Memory)
          (((address >>> 8) % 256) :: (address % 256) :: bytes)]) ∧
      res ≠ Except.error Error.Address := by
  have hlen : bytes.length ≤ 32 := by omega
  obtain ⟨b', m', res, heq, hconf, hlen', hres, hok⟩ :=
    write_raw_characterize bus b m Dest.Memory address bytes h34 hlen
  refine ⟨b', m', res, ?_, ?_⟩
  · rw [write, if_neg (by omega)]
    exact heq
  · rcases hres with h1 | ⟨e, h1⟩ <;> subst h1 <;> simp

/-- C8 witness: a 1-byte write at the out-of-range offset 8192. -/
theorem m24c64_C8_witness :
    ∃ b' m' res, write stubBus () (M24C64.new ⟨0⟩) 8192 [0x1] =
      some (b', m', res,
        [BusOp.write (devSelect ⟨0⟩ Dest.Memory)
          (((8192 >>> 8) % 256) :: (8192 % 256) :: [0x1])]) ∧
      res ≠ Except.error Error.Address :=
  m24c64_C8_no_upper_bound_check stubBus () (M24C64.new ⟨0⟩) 8192 [0x1]
    (by decide) (by decide) (by decide)

/-! ## The faithful-memory transport: store/read lemmas -/

theorem storeBytes_lt (l : List Nat) : ∀ (mem : Nat → Nat) (off i : Nat), i < off →
    storeBytes mem off l i = mem i := by
  induction l with
  | nil => intro mem off i h; rfl
  | cons x rest ih =>
      intro mem off i h
      simp only [storeBytes]
      rw [ih (fun j => if j = off then x else mem j) (off + 1) i (by omega)]
      simp only [if_neg (by omega : ¬ i = off)]

theorem readBytes_storeBytes (l : List Nat) : ∀ (mem : Nat → Nat) (off : Nat),
    readBytes (storeBytes mem off l) off l.length = l := by
  induction l with
  | nil => intro mem off; rfl
  | cons x rest ih =>
      intro mem off
      simp only [storeBytes, List.length_cons, readBytes]
      rw [List.cons.injEq]
      constructor
      · rw [storeBytes_lt rest _ _ _ (by omega)]
        simp
      · exact ih _ (off + 1)

/-- C9: against the faithful-memory transport, `write_page` of a 32-byte
page followed by `read_page` of the same page index returns exactly the
data just written, for every page index a `u8` can express. -/
theorem m24c64_C9_write_read_roundtrip (mem : Nat → Nat) (m : M24C64) (page : Nat)
    (data : List Nat) (_hp : page < 256) (hd : data.length = 32)
    (h34 : m.cmd_buf.length = 34) :
    ∃ mem1 m1 tr1 mem2 m2 tr2,
      write_page modelBus mem m page data = some (mem1, m1, Except.ok (), tr1) ∧
      read_page modelBus mem1 m1 page = (mem2, m2, Except.ok data, tr2) := by
  set off := (page * 32) % 256 with hoff
  have hofflt : off < 256 := Nat.mod_lt _ (by norm_num)
  have hhi : (off >>> 8) % 256 = 0 := by
    rw [Nat.shiftRight_eq_div_pow]
    norm_num
    omega
  have hlo : off % 256 = off := Nat.mod_eq_of_lt hofflt
  obtain ⟨mem1, m1, res, heq, hconf, h34m, hres, hok⟩ :=
    write_raw_characterize modelBus mem m Dest.Memory off data h34 (by omega)
  obtain ⟨hmem1, hresok⟩ :=
    hok (modelWrite mem (((off >>> 8) % 256) :: (off % 256) :: data)) () rfl
  rw [hhi, hlo] at hmem1
  simp only [modelWrite] at hmem1
  norm_num at hmem1
  rw [hresok] at heq
  obtain ⟨mem2, m2, res2, heq2, hconf2, h34m2, hres2, hok2⟩ :=
    read_raw_characterize modelBus mem1 m1 Dest.Memory off 32 h34m
  obtain ⟨hmem2, hres2ok⟩ :=
    hok2 mem1 (readBytes mem1 (((off >>> 8) % 256) * 256 + (off % 256)) 32) rfl
  rw [hhi, hlo] at hres2ok
  norm_num at hres2ok
  rw [hmem1] at hres2ok
  have hrb : readBytes (storeBytes mem off data) off 32 = data := by
    have := readBytes_storeBytes data mem off
    rw [hd] at this
    exact this
  rw [hrb] at hres2ok
  rw [hres2ok] at heq2
  refine ⟨mem1, m1,
    [BusOp.write (devSelect m.config Dest.Memory)
      (((off >>> 8) % 256) :: (off % 256) :: data)],
    mem2, m2,
    [BusOp.writeRead (devSelect m1.config Dest.Memory) [(off >>> 8) % 256, off % 256] 32],
    ?_, ?_⟩
  · rw [write_page, ← hoff]
    exact heq
  · rw [read_page, ← hoff]
    exact heq2

/-- C9 witness: page 3 with payload of 32 fives over a zeroed memory. -/
theorem m24c64_C9_witness :
    ∃ mem1 m1 tr1 mem2 m2 tr2,
      write_page modelBus (fun _ => 0) (M24C64.new ⟨0⟩) 3 (List.replicate 32 5) =
        some (mem1, m1, Except.ok (), tr1) ∧
      read_page modelBus mem1 m1 3 = (mem2, m2, Except.ok (List.replicate 32 5), tr2) :=
  m24c64_C9_write_read_roundtrip (fun _ => 0) (M24C64.new ⟨0⟩) 3 (List.replicate 32 5)
    (by decide) (by decide) (by decide)

/-- C10: every public write operation passes at most 32 payload bytes to
`write_raw`, so the copy into the 34-byte command buffer is in bounds and
none of them can panic (`none` models the panic of the slice copy). -/
theorem m24c64_C10_write_ops_never_panic :
    (∀ (S B : Type) (bus : I2CBus S B) (b : B) (m : M24C64) (page : Nat)
        (bytes : List Nat), bytes.length = 32 → write_page bus b m page bytes ≠ none) ∧
    (∀ (S B : Type) (bus : I2CBus S B) (b : B) (m : M24C64) (address : Nat)
        (bytes : List Nat), write bus b m address bytes ≠ none) ∧
    (∀ (S B : Type) (bus : I2CBus S B) (b : B) (m : M24C64) (address : Nat)
        (bytes : List Nat), write_id bus b m address bytes ≠ none) ∧
    (∀ (S B : Type) (bus : I2CBus S B) (b : B) (m : M24C64) (bytes : List Nat),
        bytes.length = 32 → write_id_page bus b m bytes ≠ none) ∧
    (∀ (S B : Type) (bus : I2CBus S B) (b : B) (m : M24C64),
        lock_id_page bus b m ≠ none) := by
  refine ⟨?_, ?_, ?_, ?_, ?_⟩
  · intro S B bus b m page bytes hlen
    exact write_raw_ne_none bus b m Dest.Memory ((page * 32) % 256) bytes (by omega)
  · intro S B bus b m address bytes
    by_cases hg : address % 32 + bytes.length > 32
    · rw [write, if_pos hg]
      simp
    · rw [write, if_neg hg]
      exact write_raw_ne_none bus b m Dest.Memory address bytes (by omega)
  · intro S B bus b m address bytes
    by_cases hg : address + bytes.length > 32
    · rw [write_id, if_pos hg]
      simp
    · rw [write_id, if_neg hg]
      exact write_raw_ne_none bus b m Dest.Identification (clearBit10 address) bytes (by omega)
  · intro S B bus b m bytes hlen
    exact write_raw_ne_none bus b m Dest.Identification 0 bytes (by omega)
  · intro S B bus b m
    exact write_raw_ne_none bus b m Dest.Identification 0x400 [0x2] (by simp)

/-- C10 witness: each write operation at a concrete in-range input. -/
theorem m24c64_C10_witness :
    write_page stubBus () (M24C64.new ⟨0⟩) 2 (List.replicate 32 1) ≠ none ∧
    write stubBus () (M24C64.new ⟨0⟩) 40 (List.replicate 40 1) ≠ none ∧
    write_id stubBus () (M24C64.new ⟨0⟩) 4 [9] ≠ none ∧
    write_id_page stubBus () (M24C64.new ⟨0⟩) (List.replicate 32 1) ≠ none ∧
    lock_id_page stubBus () (M24C64.new ⟨0⟩) ≠ none :=
  ⟨m24c64_C10_write_ops_never_panic.1 Unit Unit stubBus () (M24C64.new ⟨0⟩) 2
      (List.replicate 32 1) (by decide),
    m24c64_C10_write_ops_never_panic.2.1 Unit Unit stubBus () (M24C64.new ⟨0⟩) 40
      (List.replicate 40 1),
    m24c64_C10_write_ops_never_panic.2.2.1 Unit Unit stubBus () (M24C64.new ⟨0⟩) 4 [9],
    m24c64_C10_write_ops_never_panic.2.2.2.1 Unit Unit stubBus () (M24C64.new ⟨0⟩)
      (List.replicate 32 1) (by decide),
    m24c64_C10_write_ops_never_panic.2.2.2.2 Unit Unit stubBus () (M24C64.new ⟨0⟩)⟩
